import Mathlib

/-!
Verification of the rusty-chat-server user service and transport layer.
The definitions below are shallow embeddings of the Rust functions in
src/user_service.rs and src/tcp_server.rs; strings are modelled as lists
of characters, byte lengths by the UTF-8 size of each character, and the
SQLite-backed credential store by a list of records searched in order.
-/

set_option autoImplicit false

deriving instance DecidableEq for Except

namespace RustyChat

/-- Error type of name validation, from user_service.rs. -/
inductive UserNameError where
  | IncorrectLength (min max : Nat)
  | MultipleDots
  | MultipleUnderscores
  | UnallowedCharacter
deriving DecidableEq

/-- Error type of password validation, from user_service.rs. -/
inductive PasswordError where
  | IncorrectLength (min max : Nat)
  | UnallowedCharacter
deriving DecidableEq

/-- Error type of registration, from user_service.rs. -/
inductive RegistrationError where
  | IncorrectName (e : UserNameError)
  | IncorrectPassword (e : PasswordError)
  | NameAlreadyInUse
deriving DecidableEq

/-- Error type of authentication, from user_service.rs. -/
inductive AuthenticationError where
  | WrongNameOrPassword
deriving DecidableEq

/-- Rust char method is_ascii_alphanumeric. -/
def isAsciiAlphanumeric (c : Char) : Bool :=
  (48 ≤ c.toNat && c.toNat ≤ 57) || (65 ≤ c.toNat && c.toNat ≤ 90) ||
    (97 ≤ c.toNat && c.toNat ≤ 122)

/-- Rust char method is_ascii_graphic: the range 0x21 to 0x7E. -/
def isAsciiGraphic (c : Char) : Bool :=
  33 ≤ c.toNat && c.toNat ≤ 126

/-- Number of bytes of the UTF-8 encoding of one character, as in Rust. -/
def charUtf8Size (c : Char) : Nat :=
  if c.toNat < 128 then 1
  else if c.toNat < 2048 then 2
  else if c.toNat < 65536 then 3
  else 4

/-- Rust String method len: the byte length of the UTF-8 encoding. -/
def byteLen (s : List Char) : Nat :=
  (s.map charUtf8Size).sum

/-- The character loop of UserService::verify_name, with the two
consecutiveness flags was_dot and was_underscore threaded through. -/
def scanName : Bool → Bool → List Char → Except UserNameError Unit
  | _, _, [] => Except.ok ()
  | wasDot, wasUnd, c :: cs =>
    if isAsciiAlphanumeric c then scanName false false cs
    else if c = '.' then
      if wasDot then Except.error UserNameError.MultipleDots
      else scanName true wasUnd cs
    else if c = '_' then
      if wasUnd then Except.error UserNameError.MultipleUnderscores
      else scanName wasDot true cs
    else Except.error UserNameError.UnallowedCharacter

/-- UserService::verify_name from user_service.rs: length check first,
then the character scan with the consecutiveness flags. -/
def verify_name (name : List Char) : Except UserNameError Unit :=
  if byteLen name < 7 ∨ byteLen name > 32 then
    Except.error (UserNameError.IncorrectLength 7 32)
  else scanName false false name

/-- The character loop of UserService::verify_password. -/
def scanPassword : List Char → Except PasswordError Unit
  | [] => Except.ok ()
  | c :: cs =>
    if isAsciiGraphic c then scanPassword cs
    else Except.error PasswordError.UnallowedCharacter

/-- UserService::verify_password from user_service.rs. -/
def verify_password (password : List Char) : Except PasswordError Unit :=
  if byteLen password < 8 ∨ byteLen password > 32 then
    Except.error (PasswordError.IncorrectLength 8 32)
  else scanPassword password

/-- A persisted credential record, from server_database.rs. -/
structure UserCredentials where
  name : List Char
  password_hash : List Char
deriving DecidableEq

/-- The raw credentials carried by requests, from server_database.rs. -/
structure UserCredentialsRaw where
  name : List Char
  password : List Char
deriving DecidableEq

/-- ServerDatabase::get_user_by_name: the SQLite table is modelled as a
list of records with unique names, queried in order. -/
def get_user_by_name (db : List UserCredentials) (name : List Char) :
    Option UserCredentials :=
  db.find? (fun r => r.name == name)

/-- ServerDatabase::add_new_user: insertion appends a row. -/
def add_new_user (db : List UserCredentials) (r : UserCredentials) :
    List UserCredentials :=
  db ++ [r]

/-- UserService::authenticate_user, parameterized by the bcrypt verifier
of the pwhash crate. -/
def authenticate_user (verify : List Char → List Char → Bool)
    (db : List UserCredentials) (creds : UserCredentialsRaw) :
    Except AuthenticationError Unit :=
  match get_user_by_name db creds.name with
  | some uc =>
    if verify creds.password uc.password_hash then Except.ok ()
    else Except.error AuthenticationError.WrongNameOrPassword
  | none => Except.error AuthenticationError.WrongNameOrPassword

/-- UserService::add_user, parameterized by the bcrypt hasher of the
pwhash crate. The mutation of the database is modelled by returning the
new list of records on success. -/
def add_user (hash : List Char → List Char) (db : List UserCredentials)
    (creds : UserCredentialsRaw) :
    Except RegistrationError (List UserCredentials) :=
  match verify_name creds.name with
  | Except.error e => Except.error (RegistrationError.IncorrectName e)
  | Except.ok () =>
    if (get_user_by_name db creds.name).isSome then
      Except.error RegistrationError.NameAlreadyInUse
    else
      match verify_password creds.password with
      | Except.error e => Except.error (RegistrationError.IncorrectPassword e)
      | Except.ok () =>
        Except.ok (add_new_user db
          { name := creds.name, password_hash := hash creds.password })

/-- A character the validator allows: ASCII alphanumeric, dot or
underscore. -/
def allowedChar (c : Char) : Bool :=
  isAsciiAlphanumeric c || c = '.' || c = '_'

/-- Some occurrence of sym is preceded only by non-alphanumeric
characters: a pending consecutiveness flag would fire on it. -/
def hasEarlySym (sym : Char) (cs : List Char) : Prop :=
  ∃ m r, cs = m ++ sym :: r ∧ ∀ c ∈ m, isAsciiAlphanumeric c = false

/-- Two occurrences of sym with no alphanumeric character between them:
the consecutiveness violation the validator detects. -/
def hasDoubleSym (sym : Char) (cs : List Char) : Prop :=
  ∃ l m r, cs = l ++ sym :: (m ++ sym :: r) ∧
    ∀ c ∈ m, isAsciiAlphanumeric c = false

/-- Boolean mirror of hasEarlySym. -/
def hasEarlySymB (sym : Char) : List Char → Bool
  | [] => false
  | c :: cs => c = sym || (!isAsciiAlphanumeric c && hasEarlySymB sym cs)

/-- Boolean mirror of hasDoubleSym. -/
def hasDoubleSymB (sym : Char) : List Char → Bool
  | [] => false
  | c :: cs => (c = sym && hasEarlySymB sym cs) || hasDoubleSymB sym cs

theorem hasEarlySym_nil (sym : Char) : ¬ hasEarlySym sym [] := by
  rintro ⟨m, r, h, -⟩
  simp at h

theorem hasDoubleSym_nil (sym : Char) : ¬ hasDoubleSym sym [] := by
  rintro ⟨l, m, r, h, -⟩
  simp at h

theorem hasEarlySym_cons (sym c : Char) (cs : List Char) :
    hasEarlySym sym (c :: cs) ↔
      c = sym ∨ (isAsciiAlphanumeric c = false ∧ hasEarlySym sym cs) := by
  constructor
  · rintro ⟨m, r, heq, hm⟩
    cases m with
    | nil =>
      simp at heq
      exact Or.inl heq.1
    | cons a m =>
      simp at heq
      obtain ⟨rfl, htail⟩ := heq
      exact Or.inr ⟨hm c (by simp), m, r, htail, fun x hx => hm x (by simp [hx])⟩
  · rintro (rfl | ⟨hc, m, r, rfl, hm⟩)
    · exact ⟨[], cs, rfl, by simp⟩
    · refine ⟨c :: m, r, rfl, ?_⟩
      intro x hx
      rcases List.mem_cons.mp hx with rfl | hx
      · exact hc
      · exact hm x hx

theorem hasDoubleSym_cons (sym c : Char) (cs : List Char) :
    hasDoubleSym sym (c :: cs) ↔
      (c = sym ∧ hasEarlySym sym cs) ∨ hasDoubleSym sym cs := by
  constructor
  · rintro ⟨l, m, r, heq, hm⟩
    cases l with
    | nil =>
      simp at heq
      exact Or.inl ⟨heq.1, m, r, heq.2, hm⟩
    | cons a l =>
      simp at heq
      exact Or.inr ⟨l, m, r, heq.2, hm⟩
  · rintro (⟨rfl, m, r, rfl, hm⟩ | ⟨l, m, r, rfl, hm⟩)
    · exact ⟨[], m, r, rfl, hm⟩
    · exact ⟨c :: l, m, r, rfl, hm⟩

theorem hasEarlySym_iff_b (sym : Char) (cs : List Char) :
    hasEarlySym sym cs ↔ hasEarlySymB sym cs = true := by
  induction cs with
  | nil => simp [hasEarlySymB, hasEarlySym_nil]
  | cons c cs ih => simp [hasEarlySymB, hasEarlySym_cons, ih]

theorem hasDoubleSym_iff_b (sym : Char) (cs : List Char) :
    hasDoubleSym sym cs ↔ hasDoubleSymB sym cs = true := by
  induction cs with
  | nil => simp [hasDoubleSymB, hasDoubleSym_nil]
  | cons c cs ih => simp [hasDoubleSymB, hasDoubleSym_cons, ih, hasEarlySym_iff_b]

instance (sym : Char) (cs : List Char) : Decidable (hasEarlySym sym cs) :=
  decidable_of_iff _ (hasEarlySym_iff_b sym cs).symm

instance (sym : Char) (cs : List Char) : Decidable (hasDoubleSym sym cs) :=
  decidable_of_iff _ (hasDoubleSym_iff_b sym cs).symm

theorem alnum_ne_dot {c : Char} (h : isAsciiAlphanumeric c = true) : c ≠ '.' := by
  rintro rfl
  simp [isAsciiAlphanumeric] at h

theorem alnum_ne_und {c : Char} (h : isAsciiAlphanumeric c = true) : c ≠ '_' := by
  rintro rfl
  simp [isAsciiAlphanumeric] at h

theorem scanName_ok_iff (cs : List Char) : ∀ d u : Bool,
    scanName d u cs = Except.ok () ↔
      ((∀ c ∈ cs, allowedChar c = true) ∧
        ¬ hasDoubleSym '.' cs ∧ ¬ hasDoubleSym '_' cs ∧
        (d = true → ¬ hasEarlySym '.' cs) ∧
        (u = true → ¬ hasEarlySym '_' cs)) := by
  induction cs with
  | nil =>
    intro d u
    simp [scanName, hasDoubleSym_nil, hasEarlySym_nil]
  | cons c cs ih =>
    intro d u
    have Hall : (∀ x ∈ c :: cs, allowedChar x = true) ↔
        (allowedChar c = true ∧ ∀ x ∈ cs, allowedChar x = true) := by
      simp
    rw [Hall, hasDoubleSym_cons '.' c cs, hasDoubleSym_cons '_' c cs,
      hasEarlySym_cons '.' c cs, hasEarlySym_cons '_' c cs]
    by_cases halnum : isAsciiAlphanumeric c = true
    · have hnd : c ≠ '.' := alnum_ne_dot halnum
      have hnu : c ≠ '_' := alnum_ne_und halnum
      have hne : isAsciiAlphanumeric c ≠ false := by simp [halnum]
      have hac : allowedChar c = true := by simp [allowedChar, halnum]
      have hscan : scanName d u (c :: cs) = scanName false false cs := by
        simp [scanName, halnum]
      rw [hscan, ih false false]
      tauto
    · have halnum' : isAsciiAlphanumeric c = false := by
        simpa using halnum
      by_cases hdot : c = '.'
      · subst hdot
        have hne : ('.' : Char) ≠ '_' := by decide
        cases d with
        | true =>
          have hscan : scanName true u ('.' :: cs) =
              Except.error UserNameError.MultipleDots := by
            simp [scanName, halnum']
          rw [hscan]
          have hno : Except.error UserNameError.MultipleDots ≠
              (Except.ok () : Except UserNameError Unit) := by simp
          tauto
        | false =>
          have hscan : scanName false u ('.' :: cs) = scanName true u cs := by
            simp [scanName, halnum']
          have hac : allowedChar '.' = true := by decide
          have hnf : (false : Bool) ≠ true := by decide
          rw [hscan, ih true u]
          tauto
      · by_cases hund : c = '_'
        · subst hund
          have hne : ('_' : Char) ≠ '.' := by decide
          cases u with
          | true =>
            have hscan : scanName d true ('_' :: cs) =
                Except.error UserNameError.MultipleUnderscores := by
              simp [scanName, halnum', hdot]
            rw [hscan]
            have hno : Except.error UserNameError.MultipleUnderscores ≠
                (Except.ok () : Except UserNameError Unit) := by simp
            tauto
          | false =>
            have hscan : scanName d false ('_' :: cs) = scanName d true cs := by
              simp [scanName, halnum', hdot]
            have hac : allowedChar '_' = true := by decide
            have hnf : (false : Bool) ≠ true := by decide
            rw [hscan, ih d true]
            tauto
        · have hbad : allowedChar c ≠ true := by
            simp [allowedChar, halnum', hdot, hund]
          have hscan : scanName d u (c :: cs) =
              Except.error UserNameError.UnallowedCharacter := by
            simp [scanName, halnum', hdot, hund]
          rw [hscan]
          have hno : Except.error UserNameError.UnallowedCharacter ≠
              (Except.ok () : Except UserNameError Unit) := by simp
          tauto

theorem scanName_ne_length (cs : List Char) : ∀ d u a b,
    scanName d u cs ≠ Except.error (UserNameError.IncorrectLength a b) := by
  induction cs with
  | nil =>
    intro d u a b
    simp [scanName]
  | cons c cs ih =>
    intro d u a b
    by_cases halnum : isAsciiAlphanumeric c = true
    · simpa [scanName, halnum] using ih false false a b
    · have halnum' : isAsciiAlphanumeric c = false := by simpa using halnum
      by_cases hdot : c = '.'
      · subst hdot
        cases d with
        | true => simp [scanName, halnum']
        | false => simpa [scanName, halnum'] using ih true u a b
      · by_cases hund : c = '_'
        · subst hund
          cases u with
          | true => simp [scanName, halnum', hdot]
          | false => simpa [scanName, halnum', hdot] using ih d true a b
        · simp [scanName, halnum', hdot, hund]

theorem scanName_unallowed (cs : List Char) : ∀ d u,
    scanName d u cs = Except.error UserNameError.UnallowedCharacter →
      ∃ c ∈ cs, allowedChar c = false := by
  induction cs with
  | nil =>
    intro d u h
    simp [scanName] at h
  | cons c cs ih =>
    intro d u h
    by_cases halnum : isAsciiAlphanumeric c = true
    · rw [show scanName d u (c :: cs) = scanName false false cs from by
        simp [scanName, halnum]] at h
      obtain ⟨x, hx, hbad⟩ := ih false false h
      exact ⟨x, by simp [hx], hbad⟩
    · have halnum' : isAsciiAlphanumeric c = false := by simpa using halnum
      by_cases hdot : c = '.'
      · subst hdot
        cases d with
        | true => simp [scanName, halnum'] at h
        | false =>
          rw [show scanName false u ('.' :: cs) = scanName true u cs from by
            simp [scanName, halnum']] at h
          obtain ⟨x, hx, hbad⟩ := ih true u h
          exact ⟨x, by simp [hx], hbad⟩
      · by_cases hund : c = '_'
        · subst hund
          cases u with
          | true => simp [scanName, halnum', hdot] at h
          | false =>
            rw [show scanName d false ('_' :: cs) = scanName d true cs from by
              simp [scanName, halnum', hdot]] at h
            obtain ⟨x, hx, hbad⟩ := ih d true h
            exact ⟨x, by simp [hx], hbad⟩
        · exact ⟨c, by simp, by simp [allowedChar, halnum', hdot, hund]⟩

theorem scanName_dots (cs : List Char) : ∀ d u,
    scanName d u cs = Except.error UserNameError.MultipleDots →
      hasDoubleSym '.' cs ∨ (d = true ∧ hasEarlySym '.' cs) := by
  induction cs with
  | nil =>
    intro d u h
    simp [scanName] at h
  | cons c cs ih =>
    intro d u h
    by_cases halnum : isAsciiAlphanumeric c = true
    · rw [show scanName d u (c :: cs) = scanName false false cs from by
        simp [scanName, halnum]] at h
      rcases ih false false h with hd | ⟨hfalse, -⟩
      · exact Or.inl ((hasDoubleSym_cons '.' c cs).mpr (Or.inr hd))
      · exact absurd hfalse (by simp)
    · have halnum' : isAsciiAlphanumeric c = false := by simpa using halnum
      by_cases hdot : c = '.'
      · subst hdot
        cases d with
        | true =>
          refine Or.inr ⟨rfl, (hasEarlySym_cons '.' '.' cs).mpr (Or.inl rfl)⟩
        | false =>
          rw [show scanName false u ('.' :: cs) = scanName true u cs from by
            simp [scanName, halnum']] at h
          rcases ih true u h with hd | ⟨-, he⟩
          · exact Or.inl ((hasDoubleSym_cons '.' '.' cs).mpr (Or.inr hd))
          · exact Or.inl ((hasDoubleSym_cons '.' '.' cs).mpr (Or.inl ⟨rfl, he⟩))
      · by_cases hund : c = '_'
        · subst hund
          cases u with
          | true => simp [scanName, halnum', hdot] at h
          | false =>
            rw [show scanName d false ('_' :: cs) = scanName d true cs from by
              simp [scanName, halnum', hdot]] at h
            rcases ih d true h with hd | ⟨hdt, he⟩
            · exact Or.inl ((hasDoubleSym_cons '.' '_' cs).mpr (Or.inr hd))
            · exact Or.inr ⟨hdt,
                (hasEarlySym_cons '.' '_' cs).mpr (Or.inr ⟨halnum', he⟩)⟩
        · simp [scanName, halnum', hdot, hund] at h

theorem scanName_unds (cs : List Char) : ∀ d u,
    scanName d u cs = Except.error UserNameError.MultipleUnderscores →
      hasDoubleSym '_' cs ∨ (u = true ∧ hasEarlySym '_' cs) := by
  induction cs with
  | nil =>
    intro d u h
    simp [scanName] at h
  | cons c cs ih =>
    intro d u h
    by_cases halnum : isAsciiAlphanumeric c = true
    · rw [show scanName d u (c :: cs) = scanName false false cs from by
        simp [scanName, halnum]] at h
      rcases ih false false h with hd | ⟨hfalse, -⟩
      · exact Or.inl ((hasDoubleSym_cons '_' c cs).mpr (Or.inr hd))
      · exact absurd hfalse (by simp)
    · have halnum' : isAsciiAlphanumeric c = false := by simpa using halnum
      by_cases hdot : c = '.'
      · subst hdot
        cases d with
        | true => simp [scanName, halnum'] at h
        | false =>
          rw [show scanName false u ('.' :: cs) = scanName true u cs from by
            simp [scanName, halnum']] at h
          rcases ih true u h with hd | ⟨hut, he⟩
          · exact Or.inl ((hasDoubleSym_cons '_' '.' cs).mpr (Or.inr hd))
          · exact Or.inr ⟨hut,
              (hasEarlySym_cons '_' '.' cs).mpr (Or.inr ⟨halnum', he⟩)⟩
      · by_cases hund : c = '_'
        · subst hund
          cases u with
          | true =>
            refine Or.inr ⟨rfl, (hasEarlySym_cons '_' '_' cs).mpr (Or.inl rfl)⟩
          | false =>
            rw [show scanName d false ('_' :: cs) = scanName d true cs from by
              simp [scanName, halnum', hdot]] at h
            rcases ih d true h with hd | ⟨-, he⟩
            · exact Or.inl ((hasDoubleSym_cons '_' '_' cs).mpr (Or.inr hd))
            · exact Or.inl ((hasDoubleSym_cons '_' '_' cs).mpr (Or.inl ⟨rfl, he⟩))
        · simp [scanName, halnum', hdot, hund] at h

/-- Claim C1: verify_name accepts exactly the names of 7 to 32 bytes whose
characters are ASCII alphanumeric, dot or underscore, with no two
occurrences of dot and no two occurrences of underscore that lack an
intervening alphanumeric character (the consecutiveness flags are reset
only by alphanumerics, so mixed dot-underscore pairs are permitted, as are
leading and trailing symbols); a length violation yields
IncorrectLength 7 32, a lone double-dot violation yields MultipleDots, a
lone double-underscore violation yields MultipleUnderscores, and a name of
valid length without consecutiveness violations but with a foreign
character yields UnallowedCharacter. -/
theorem verify_name_spec (name : List Char) :
    (verify_name name = Except.ok () ↔
      (7 ≤ byteLen name ∧ byteLen name ≤ 32 ∧
        (∀ c ∈ name, allowedChar c = true) ∧
        ¬ hasDoubleSym '.' name ∧ ¬ hasDoubleSym '_' name))
    ∧ (byteLen name < 7 ∨ 32 < byteLen name →
        verify_name name = Except.error (UserNameError.IncorrectLength 7 32))
    ∧ (7 ≤ byteLen name → byteLen name ≤ 32 →
        (∀ c ∈ name, allowedChar c = true) → ¬ hasDoubleSym '_' name →
        hasDoubleSym '.' name →
        verify_name name = Except.error UserNameError.MultipleDots)
    ∧ (7 ≤ byteLen name → byteLen name ≤ 32 →
        (∀ c ∈ name, allowedChar c = true) → ¬ hasDoubleSym '.' name →
        hasDoubleSym '_' name →
        verify_name name = Except.error UserNameError.MultipleUnderscores)
    ∧ (7 ≤ byteLen name → byteLen name ≤ 32 →
        ¬ hasDoubleSym '.' name → ¬ hasDoubleSym '_' name →
        (∃ c ∈ name, allowedChar c = false) →
        verify_name name = Except.error UserNameError.UnallowedCharacter) := by
  by_cases hlen : byteLen name < 7 ∨ byteLen name > 32
  · have hv : verify_name name =
        Except.error (UserNameError.IncorrectLength 7 32) := by
      simp [verify_name, hlen]
    refine ⟨?_, fun _ => hv, ?_, ?_, ?_⟩
    · rw [hv]
      constructor
      · intro h
        exact absurd h (by simp)
      · rintro ⟨h7, h32, -⟩
        rcases hlen with hlen | hlen <;> omega
    · intro h7 h32 _ _ _
      rcases hlen with hlen | hlen <;> omega
    · intro h7 h32 _ _ _
      rcases hlen with hlen | hlen <;> omega
    · intro h7 h32 _ _ _
      rcases hlen with hlen | hlen <;> omega
  · have hlen' : 7 ≤ byteLen name ∧ byteLen name ≤ 32 := by
      push_neg at hlen
      omega
    have hv : verify_name name = scanName false false name := by
      simp [verify_name, hlen]
    refine ⟨?_, ?_, ?_, ?_, ?_⟩
    · rw [hv, scanName_ok_iff]
      constructor
      · rintro ⟨hall, hdd, hdu, -, -⟩
        exact ⟨hlen'.1, hlen'.2, hall, hdd, hdu⟩
      · rintro ⟨-, -, hall, hdd, hdu⟩
        exact ⟨hall, hdd, hdu, by simp, by simp⟩
    · intro hbad
      rcases hbad with hbad | hbad <;> omega
    · intro _ _ hall hdu hdd
      rw [hv]
      cases hscan : scanName false false name with
      | ok v =>
        obtain ⟨-, hdd', -⟩ := (scanName_ok_iff name false false).mp (by
          cases v
          exact hscan)
        exact absurd hdd hdd'
      | error e =>
        cases e with
        | IncorrectLength a b => exact absurd hscan (scanName_ne_length name false false a b)
        | MultipleDots => rfl
        | MultipleUnderscores =>
          rcases scanName_unds name false false hscan with hd | ⟨hfu, -⟩
          · exact absurd hd hdu
          · exact absurd hfu (by simp)
        | UnallowedCharacter =>
          obtain ⟨c, hc, hbad⟩ := scanName_unallowed name false false hscan
          rw [hall c hc] at hbad
          exact absurd hbad (by simp)
    · intro _ _ hall hdd hdu
      rw [hv]
      cases hscan : scanName false false name with
      | ok v =>
        obtain ⟨-, -, hdu', -⟩ := (scanName_ok_iff name false false).mp (by
          cases v
          exact hscan)
        exact absurd hdu hdu'
      | error e =>
        cases e with
        | IncorrectLength a b => exact absurd hscan (scanName_ne_length name false false a b)
        | MultipleUnderscores => rfl
        | MultipleDots =>
          rcases scanName_dots name false false hscan with hd | ⟨hfd, -⟩
          · exact absurd hd hdd
          · exact absurd hfd (by simp)
        | UnallowedCharacter =>
          obtain ⟨c, hc, hbad⟩ := scanName_unallowed name false false hscan
          rw [hall c hc] at hbad
          exact absurd hbad (by simp)
    · intro _ _ hdd hdu hbadc
      rw [hv]
      cases hscan : scanName false false name with
      | ok v =>
        obtain ⟨hall, -⟩ := (scanName_ok_iff name false false).mp (by
          cases v
          exact hscan)
        obtain ⟨c, hc, hbad⟩ := hbadc
        rw [hall c hc] at hbad
        exact absurd hbad (by simp)
      | error e =>
        cases e with
        | IncorrectLength a b => exact absurd hscan (scanName_ne_length name false false a b)
        | UnallowedCharacter => rfl
        | MultipleDots =>
          rcases scanName_dots name false false hscan with hd | ⟨hfd, -⟩
          · exact absurd hd hdd
          · exact absurd hfd (by simp)
        | MultipleUnderscores =>
          rcases scanName_unds name false false hscan with hd | ⟨hfu, -⟩
          · exact absurd hd hdu
          · exact absurd hfu (by simp)

/-- Witness for claim C1 at the concrete name ab..cde: seven bytes long,
all characters allowed, no double underscore, a double dot, and the
validator reports MultipleDots. -/
theorem verify_name_spec_witness :
    (7 ≤ byteLen ['a', 'b', '.', '.', 'c', 'd', 'e'] ∧
      hasDoubleSym '.' ['a', 'b', '.', '.', 'c', 'd', 'e']) ∧
    verify_name ['a', 'b', '.', '.', 'c', 'd', 'e'] =
      Except.error UserNameError.MultipleDots :=
  ⟨⟨by decide, by decide⟩,
    (verify_name_spec ['a', 'b', '.', '.', 'c', 'd', 'e']).2.2.1
      (by decide) (by decide) (by decide) (by decide) (by decide)⟩

/-- Claim C2: add_user performs its checks in order — name validity first
(the result is the same for every store, so the store is never consulted),
then the uniqueness lookup (a taken name yields NameAlreadyInUse with no
condition on the password, so even an invalid password is not reported),
then password validity, and only then the hash is computed and the record
inserted. -/
theorem add_user_order (hash : List Char → List Char)
    (creds : UserCredentialsRaw) :
    (∀ e, verify_name creds.name = Except.error e →
      ∀ db, add_user hash db creds =
        Except.error (RegistrationError.IncorrectName e))
    ∧ (∀ db, verify_name creds.name = Except.ok () →
        (get_user_by_name db creds.name).isSome = true →
        add_user hash db creds =
          Except.error RegistrationError.NameAlreadyInUse)
    ∧ (∀ db e, verify_name creds.name = Except.ok () →
        get_user_by_name db creds.name = none →
        verify_password creds.password = Except.error e →
        add_user hash db creds =
          Except.error (RegistrationError.IncorrectPassword e))
    ∧ (∀ db, verify_name creds.name = Except.ok () →
        get_user_by_name db creds.name = none →
        verify_password creds.password = Except.ok () →
        add_user hash db creds = Except.ok (add_new_user db
          { name := creds.name, password_hash := hash creds.password })) := by
  refine ⟨?_, ?_, ?_, ?_⟩
  · intro e he db
    simp [add_user, he]
  · intro db hn hs
    simp [add_user, hn, hs]
  · intro db e hn habs hp
    simp [add_user, hn, habs, hp]
  · intro db hn habs hp
    simp [add_user, hn, habs, hp]

/-- Witness for claim C2: the name alice01 is valid and already stored,
the password is a single character and hence invalid, and registration
still reports NameAlreadyInUse. -/
theorem add_user_order_witness :
    (verify_name ['a', 'l', 'i', 'c', 'e', '0', '1'] = Except.ok () ∧
      (get_user_by_name
        [{ name := ['a', 'l', 'i', 'c', 'e', '0', '1'], password_hash := ['h'] }]
        ['a', 'l', 'i', 'c', 'e', '0', '1']).isSome = true ∧
      verify_password ['x'] = Except.error (PasswordError.IncorrectLength 8 32)) ∧
    add_user (fun p => p)
      [{ name := ['a', 'l', 'i', 'c', 'e', '0', '1'], password_hash := ['h'] }]
      { name := ['a', 'l', 'i', 'c', 'e', '0', '1'], password := ['x'] } =
      Except.error RegistrationError.NameAlreadyInUse :=
  ⟨⟨by decide, by decide, by decide⟩,
    (add_user_order (fun p => p)
      { name := ['a', 'l', 'i', 'c', 'e', '0', '1'], password := ['x'] }).2.1
      _ (by decide) (by decide)⟩

theorem get_user_by_name_append_right (db : List UserCredentials)
    (r : UserCredentials) (n : List Char)
    (h : get_user_by_name db n = none) :
    get_user_by_name (db ++ [r]) n = List.find? (fun x => x.name == n) [r] := by
  unfold get_user_by_name at *
  rw [List.find?_append, h]
  rfl

/-- Claim C3: for a valid name, a valid password, a store without the
name, and a password hasher and verifier that round-trip, registration
succeeds and a subsequent authentication with the same credentials against
the resulting store succeeds. -/
theorem register_then_authenticate (hash : List Char → List Char)
    (verify : List Char → List Char → Bool) (db : List UserCredentials)
    (creds : UserCredentialsRaw)
    (hname : verify_name creds.name = Except.ok ())
    (hpass : verify_password creds.password = Except.ok ())
    (habs : get_user_by_name db creds.name = none)
    (hbcrypt : verify creds.password (hash creds.password) = true) :
    ∃ db2, add_user hash db creds = Except.ok db2 ∧
      authenticate_user verify db2 creds = Except.ok () := by
  refine ⟨add_new_user db
    { name := creds.name, password_hash := hash creds.password }, ?_, ?_⟩
  · simp [add_user, hname, habs, hpass]
  · have hlookup : get_user_by_name (add_new_user db
        { name := creds.name, password_hash := hash creds.password })
        creds.name =
        some { name := creds.name, password_hash := hash creds.password } := by
      rw [add_new_user, get_user_by_name_append_right db _ _ habs]
      simp [List.find?]
    simp [authenticate_user, hlookup, hbcrypt]

/-- Witness for claim C3 with the identity hasher, equality as the
verifier, the empty store and the credentials alice01 with password
Secret19. -/
theorem register_then_authenticate_witness :
    (verify_name ['a', 'l', 'i', 'c', 'e', '0', '1'] = Except.ok () ∧
      verify_password ['S', 'e', 'c', 'r', 'e', 't', '1', '9'] = Except.ok ()) ∧
    (∃ db2, add_user (fun p => p) []
      { name := ['a', 'l', 'i', 'c', 'e', '0', '1'],
        password := ['S', 'e', 'c', 'r', 'e', 't', '1', '9'] } =
        Except.ok db2 ∧
      authenticate_user (fun p h => p == h) db2
        { name := ['a', 'l', 'i', 'c', 'e', '0', '1'],
          password := ['S', 'e', 'c', 'r', 'e', 't', '1', '9'] } =
        Except.ok ()) :=
  ⟨⟨by decide, by decide⟩,
    register_then_authenticate (fun p => p) (fun p h => p == h) []
      { name := ['a', 'l', 'i', 'c', 'e', '0', '1'],
        password := ['S', 'e', 'c', 'r', 'e', 't', '1', '9'] }
      (by decide) (by decide) (by decide) (by decide)⟩

/-- Claim C4: authenticate_user fails exactly when the name is absent from
the store or the stored hash does not verify against the password, both
failures produce the single error value WrongNameOrPassword, and every
result is either success or that one error. -/
theorem authenticate_user_spec (verify : List Char → List Char → Bool)
    (db : List UserCredentials) (creds : UserCredentialsRaw) :
    (authenticate_user verify db creds =
        Except.error AuthenticationError.WrongNameOrPassword ↔
      (get_user_by_name db creds.name = none ∨
        ∃ uc, get_user_by_name db creds.name = some uc ∧
          verify creds.password uc.password_hash = false))
    ∧ (authenticate_user verify db creds = Except.ok () ∨
        authenticate_user verify db creds =
          Except.error AuthenticationError.WrongNameOrPassword) := by
  constructor
  · cases hlk : get_user_by_name db creds.name with
    | none => simp [authenticate_user, hlk]
    | some uc =>
      by_cases hv : verify creds.password uc.password_hash = true
      · simp [authenticate_user, hlk, hv]
      · have hv' : verify creds.password uc.password_hash = false := by
          simpa using hv
        simp [authenticate_user, hlk, hv']
  · cases hlk : get_user_by_name db creds.name with
    | none => simp [authenticate_user, hlk]
    | some uc =>
      by_cases hv : verify creds.password uc.password_hash = true
      · simp [authenticate_user, hlk, hv]
      · simp [authenticate_user, hlk, hv]

/-- The command enum consumed by message_send_handler in tcp_server.rs.
Payloads are byte vectors, connection ids are strings. -/
inductive ChatServerMessage where
  | SendToAll (message : List Nat)
  | SendToAllExcept (exception : String) (message : List Nat)
  | SendToSome (ids : List String) (message : List Nat)
  | StopThread
  | DisconnectUser (id : String)
deriving DecidableEq

/-- One observable write effect of the fan-out loop. -/
inductive SendOutcome where
  | sent (id : String) (payload : List Nat)
  | failed (id : String)
deriving DecidableEq

/-- Result of the for loop over final_users_list: either the loop finishes
(possibly by the break after a failed write) or it panics on the unwrap of
a missing connection id. The log lists the write attempts in order. -/
inductive LoopResult where
  | completed (log : List SendOutcome)
  | panicked (log : List SendOutcome)
deriving DecidableEq

/-- The for loop at the bottom of message_send_handler: each iteration
looks the id up in the connection table and unwraps (a missing id
panics), then writes; a failed write is logged and breaks the loop. The
parameter writeOk tells whether the write to a given connection
succeeds. -/
def sendLoop (writeOk : String → Bool) (conns : List String)
    (msg : List Nat) : List String → LoopResult
  | [] => LoopResult.completed []
  | id :: rest =>
    if id ∈ conns then
      if writeOk id then
        match sendLoop writeOk conns msg rest with
        | LoopResult.completed log =>
          LoopResult.completed (SendOutcome.sent id msg :: log)
        | LoopResult.panicked log =>
          LoopResult.panicked (SendOutcome.sent id msg :: log)
      else LoopResult.completed [SendOutcome.failed id]
    else LoopResult.panicked []

/-- Result of handling one command in message_send_handler. -/
inductive StepResult where
  | next (conns : List String) (log : List SendOutcome)
  | halted (conns : List String)
  | panicked (conns : List String) (log : List SendOutcome)
deriving DecidableEq

/-- One iteration of the loop in message_send_handler of tcp_server.rs:
SendToAll targets every table key, SendToAllExcept skips everything when
the table has exactly one entry and otherwise targets every key other
than the excepted one, SendToSome targets the supplied ids unchecked,
StopThread returns, and DisconnectUser removes the id and returns. -/
def message_send_handler_step (writeOk : String → Bool)
    (conns : List String) : ChatServerMessage → StepResult
  | ChatServerMessage.SendToAll msg =>
    match sendLoop writeOk conns msg conns with
    | LoopResult.completed log => StepResult.next conns log
    | LoopResult.panicked log => StepResult.panicked conns log
  | ChatServerMessage.SendToAllExcept exc msg =>
    if conns.length = 1 then StepResult.next conns []
    else
      match sendLoop writeOk conns msg (conns.filter (fun k => k != exc)) with
      | LoopResult.completed log => StepResult.next conns log
      | LoopResult.panicked log => StepResult.panicked conns log
  | ChatServerMessage.SendToSome ids msg =>
    match sendLoop writeOk conns msg ids with
    | LoopResult.completed log => StepResult.next conns log
    | LoopResult.panicked log => StepResult.panicked conns log
  | ChatServerMessage.StopThread => StepResult.halted conns
  | ChatServerMessage.DisconnectUser id => StepResult.halted (conns.erase id)

/-- Result of running message_send_handler on a queue of commands. -/
inductive RunResult where
  | finished (conns : List String) (log : List SendOutcome)
  | panicked (conns : List String) (log : List SendOutcome)
deriving DecidableEq

/-- The loop of message_send_handler over a queue of commands, collecting
all write effects until the handler returns, panics, or the queue ends. -/
def message_send_handler_run (writeOk : String → Bool) :
    List String → List ChatServerMessage → RunResult
  | conns, [] => RunResult.finished conns []
  | conns, m :: rest =>
    match message_send_handler_step writeOk conns m with
    | StepResult.next conns2 log =>
      match message_send_handler_run writeOk conns2 rest with
      | RunResult.finished c l => RunResult.finished c (log ++ l)
      | RunResult.panicked c l => RunResult.panicked c (log ++ l)
    | StepResult.halted conns2 => RunResult.finished conns2 []
    | StepResult.panicked conns2 log => RunResult.panicked conns2 log

theorem sendLoop_all_present_ok (writeOk : String → Bool)
    (conns : List String) (msg : List Nat) :
    ∀ ids : List String, (∀ id ∈ ids, id ∈ conns) →
      (∀ id ∈ ids, writeOk id = true) →
      sendLoop writeOk conns msg ids =
        LoopResult.completed (ids.map (fun id => SendOutcome.sent id msg)) := by
  intro ids
  induction ids with
  | nil => intro _ _; rfl
  | cons id rest ih =>
    intro hmem hok
    have hrec := ih (fun x hx => hmem x (by simp [hx]))
      (fun x hx => hok x (by simp [hx]))
    simp [sendLoop, hmem id (by simp), hok id (by simp), hrec]

theorem sendLoop_break (writeOk : String → Bool) (conns : List String)
    (msg : List Nat) (bad : String) (post : List String)
    (hbadMem : bad ∈ conns) (hbadFail : writeOk bad = false) :
    ∀ pre : List String, (∀ id ∈ pre, id ∈ conns ∧ writeOk id = true) →
      sendLoop writeOk conns msg (pre ++ bad :: post) =
        LoopResult.completed
          ((pre.map (fun id => SendOutcome.sent id msg)) ++
            [SendOutcome.failed bad]) := by
  intro pre
  induction pre with
  | nil =>
    intro _
    simp [sendLoop, hbadMem, hbadFail]
  | cons id rest ih =>
    intro hpre
    have h := hpre id (by simp)
    have hrec := ih (fun x hx => hpre x (by simp [hx]))
    simp [sendLoop, h.1, h.2, hrec]

/-- Claim C10: executing DisconnectUser removes the id from the
connection table and makes message_send_handler return, so no command
after it in the queue — whatever those commands are — is ever executed
and no further write occurs. -/
theorem disconnect_stops_handler (writeOk : String → Bool)
    (conns : List String) (id : String) (rest : List ChatServerMessage) :
    message_send_handler_run writeOk conns
      (ChatServerMessage.DisconnectUser id :: rest) =
      RunResult.finished (conns.erase id) [] := rfl

/-- Claim C5: evaluation of the code at the failing input. With an empty
connection table, SendToSome for the id ghost does not skip the absent id:
the unwrap of the table lookup panics and the handler task aborts. -/
theorem sendToSome_absent_id_panics :
    message_send_handler_step (fun _ => true) []
      (ChatServerMessage.SendToSome ["ghost"] [104]) =
      StepResult.panicked [] [] := rfl

/-- Claim C7 counterexample: with connections a and b and a write to a
failing, the write to b is never attempted — the loop breaks after
logging the failure, so the log holds no outcome for b. -/
theorem fanout_write_failure_breaks :
    message_send_handler_step (fun id => id != "a") ["a", "b"]
      (ChatServerMessage.SendToAll [104]) =
      StepResult.next ["a", "b"] [SendOutcome.failed "a"] := by decide

/-- Claim C7 (amended): a write failure on one destination aborts the
remaining writes of the same command: every target before the failing one
is written, the failure is logged, every target after it is skipped, and
the handler proceeds to the next command rather than panicking. -/
theorem fanout_failure_spec (writeOk : String → Bool) (conns : List String)
    (msg : List Nat) (pre : List String) (bad : String) (post : List String)
    (hpre : ∀ id ∈ pre, id ∈ conns ∧ writeOk id = true)
    (hbadMem : bad ∈ conns) (hbadFail : writeOk bad = false) :
    message_send_handler_step writeOk conns
      (ChatServerMessage.SendToSome (pre ++ bad :: post) msg) =
      StepResult.next conns
        ((pre.map (fun id => SendOutcome.sent id msg)) ++
          [SendOutcome.failed bad]) := by
  have hloop := sendLoop_break writeOk conns msg bad post hbadMem hbadFail pre hpre
  simp [message_send_handler_step, hloop]

/-- Witness for claim C7: targets a, b, c all connected, the write to b
fails; a is written, the failure on b is logged, c is skipped. -/
theorem fanout_failure_spec_witness :
    (("b" : String) ∈ ["a", "b", "c"] ∧ ("b" != "a") = true) ∧
    message_send_handler_step (fun id => id != "b") ["a", "b", "c"]
      (ChatServerMessage.SendToSome ["a", "b", "c"] [104]) =
      StepResult.next ["a", "b", "c"]
        [SendOutcome.sent "a" [104], SendOutcome.failed "b"] :=
  ⟨⟨by decide, by decide⟩,
    fanout_failure_spec (fun id => id != "b") ["a", "b", "c"] [104]
      ["a"] "b" ["c"] (by decide) (by decide) (by decide)⟩

/-- Claim C9 counterexample: the connection table holds only bob, the
excepted id is alice, yet the command is skipped entirely — the code
skips whenever the table has exactly one entry, without comparing that
entry to the excepted id, so bob receives nothing. -/
theorem sendToAllExcept_single_other_skipped :
    message_send_handler_step (fun _ => true) ["bob"]
      (ChatServerMessage.SendToAllExcept "alice" [104]) =
      StepResult.next ["bob"] [] := rfl

/-- Claim C9 (amended): SendToAllExcept is skipped entirely whenever the
snapshot of the connection table has exactly one entry, whether or not
that entry is the excepted user; otherwise (with all writes succeeding)
the payload is sent exactly to the snapshot minus the excepted id, in
table order. -/
theorem sendToAllExcept_spec (writeOk : String → Bool)
    (conns : List String) (exc : String) (msg : List Nat)
    (hok : ∀ id, writeOk id = true) :
    (conns.length = 1 →
      message_send_handler_step writeOk conns
        (ChatServerMessage.SendToAllExcept exc msg) =
        StepResult.next conns [])
    ∧ (conns.length ≠ 1 →
      message_send_handler_step writeOk conns
        (ChatServerMessage.SendToAllExcept exc msg) =
        StepResult.next conns
          ((conns.filter (fun k => k != exc)).map
            (fun id => SendOutcome.sent id msg))) := by
  constructor
  · intro h1
    simp [message_send_handler_step, h1]
  · intro h1
    have hloop := sendLoop_all_present_ok writeOk conns msg
      (conns.filter (fun k => k != exc))
      (fun x hx => List.mem_of_mem_filter hx) (fun x _ => hok x)
    simp [message_send_handler_step, h1, hloop]

/-- Witness for claim C9: with connections a and b and excepted id a, the
payload goes exactly to b. -/
theorem sendToAllExcept_spec_witness :
    ((["a", "b"] : List String).length ≠ 1) ∧
    message_send_handler_step (fun _ => true) ["a", "b"]
      (ChatServerMessage.SendToAllExcept "a" [104]) =
      StepResult.next ["a", "b"] [SendOutcome.sent "b" [104]] :=
  ⟨by decide,
    (sendToAllExcept_spec (fun _ => true) ["a", "b"] "a" [104]
      (fun _ => rfl)).2 (by decide)⟩

/-- One observable answer of the socket to a try_read call: a byte chunk
(the empty chunk is the zero-length read signalling peer close), a
would-block indication, or a fatal io error. -/
inductive ReadEvent where
  | data (bytes : List Nat)
  | wouldBlock
  | ioError
deriving DecidableEq

/-- Result of read_from_stream: the buffer was filled completely (return
Ok of the buffer length), a zero-length read broke the loop (return Ok 0,
buffer only partially overwritten), a fatal io error, or the stream gave
no further events while bytes were still missing (the reader would stay
blocked). -/
inductive ReadResult where
  | filled (buf : List Nat) (rest : List ReadEvent)
  | eofZero (buf : List Nat) (rest : List ReadEvent)
  | ioErr (rest : List ReadEvent)
  | starved
deriving DecidableEq

/-- Overwrite the bytes of buf from position cursor on with bs. -/
def writeAt (buf : List Nat) (cursor : Nat) (bs : List Nat) : List Nat :=
  buf.take cursor ++ bs ++ buf.drop (cursor + bs.length)

/-- read_from_stream from tcp_server.rs: loop until the cursor reaches
the buffer length, consuming one read event per iteration; a chunk is
written at the cursor (clipped to the remaining slice, as try_read fills
at most the slice) and the cursor advances by the byte count; a
zero-length read breaks the loop and returns Ok 0; would-block retries. -/
def read_from_stream : List Nat → Nat → List ReadEvent → ReadResult
  | buf, cursor, [] =>
    if buf.length ≤ cursor then ReadResult.filled buf []
    else ReadResult.starved
  | buf, cursor, e :: rest =>
    if buf.length ≤ cursor then ReadResult.filled buf (e :: rest)
    else
      match e with
      | ReadEvent.wouldBlock => read_from_stream buf cursor rest
      | ReadEvent.ioError => ReadResult.ioErr rest
      | ReadEvent.data [] => ReadResult.eofZero buf rest
      | ReadEvent.data bs =>
        read_from_stream (writeAt buf cursor (bs.take (buf.length - cursor)))
          (cursor + min bs.length (buf.length - cursor)) rest

/-- u32::from_le_bytes on the four header bytes. -/
def u32FromLeBytes : List Nat → Nat
  | [b0, b1, b2, b3] => b0 + 256 * (b1 + 256 * (b2 + 256 * b3))
  | _ => 0

/-- Result of read_message: a payload handed to the caller, an io error
returned from the header read, a panic (a body io error reaches the
err-unwrap of the ok header result in the source), or a blocked reader. -/
inductive ReadMessageResult where
  | ok (payload : List Nat) (rest : List ReadEvent)
  | ioErr (rest : List ReadEvent)
  | panicked (rest : List ReadEvent)
  | starved
deriving DecidableEq

/-- The body phase of read_message: allocate a zero-filled buffer of the
header-declared length and read into it. A zero-length read is not an
error, so the partially overwritten zero-padded buffer is returned as the
message. A body io error panics: the source unwraps the error of the
header result, which is ok at this point. -/
def readMessageBody (len : Nat) (rest : List ReadEvent) : ReadMessageResult :=
  match read_from_stream (List.replicate len 0) 0 rest with
  | ReadResult.filled b r => ReadMessageResult.ok b r
  | ReadResult.eofZero b r => ReadMessageResult.ok b r
  | ReadResult.ioErr r => ReadMessageResult.panicked r
  | ReadResult.starved => ReadMessageResult.starved

/-- read_message from tcp_server.rs: read the 4 byte header into a zeroed
buffer, decode it as a little-endian u32 — with no upper bound check —
and run the body phase with a buffer of exactly that many bytes. -/
def read_message (input : List ReadEvent) : ReadMessageResult :=
  match read_from_stream [0, 0, 0, 0] 0 input with
  | ReadResult.ioErr rest => ReadMessageResult.ioErr rest
  | ReadResult.starved => ReadMessageResult.starved
  | ReadResult.filled hbuf rest => readMessageBody (u32FromLeBytes hbuf) rest
  | ReadResult.eofZero hbuf rest => readMessageBody (u32FromLeBytes hbuf) rest

/-- The size of the body buffer read_message allocates, when the header
phase completes without error: exactly the header value. -/
def read_message_alloc (input : List ReadEvent) : Option Nat :=
  match read_from_stream [0, 0, 0, 0] 0 input with
  | ReadResult.filled hbuf _ => some (u32FromLeBytes hbuf)
  | ReadResult.eofZero hbuf _ => some (u32FromLeBytes hbuf)
  | _ => none

/-- UTF-8 validity of a byte sequence, as checked by String::from_utf8. -/
def utf8Valid : List Nat → Bool
  | [] => true
  | b :: rest =>
    if b < 128 then utf8Valid rest
    else if b < 194 then false
    else if b < 224 then
      match rest with
      | c1 :: r => (128 ≤ c1 && c1 ≤ 191) && utf8Valid r
      | [] => false
    else if b < 240 then
      match rest with
      | c1 :: c2 :: r =>
        (if b = 224 then 160 ≤ c1 && c1 ≤ 191
          else if b = 237 then 128 ≤ c1 && c1 ≤ 159
          else 128 ≤ c1 && c1 ≤ 191) &&
          (128 ≤ c2 && c2 ≤ 191) && utf8Valid r
      | _ => false
    else if b < 245 then
      match rest with
      | c1 :: c2 :: c3 :: r =>
        (if b = 240 then 144 ≤ c1 && c1 ≤ 191
          else if b = 244 then 128 ≤ c1 && c1 ≤ 143
          else 128 ≤ c1 && c1 ≤ 191) &&
          (128 ≤ c2 && c2 ≤ 191) && (128 ≤ c3 && c3 ≤ 191) && utf8Valid r
      | _ => false
    else false

/-- What one iteration of the read loop in handle_incoming_tcp_stream
does with the stream. -/
inductive ConnectionStep where
  | terminated (rest : List ReadEvent)
  | delivered (payload : List Nat) (rest : List ReadEvent)
  | skipped (rest : List ReadEvent)
  | panicked (rest : List ReadEvent)
  | starved
deriving DecidableEq

/-- One iteration of the read loop in handle_incoming_tcp_stream: a read
error or an empty message breaks the loop (the connection terminates), a
payload that is not valid UTF-8 is skipped silently, and any other
payload is delivered to the session logic. -/
def connection_step (input : List ReadEvent) : ConnectionStep :=
  match read_message input with
  | ReadMessageResult.ioErr rest => ConnectionStep.terminated rest
  | ReadMessageResult.panicked rest => ConnectionStep.panicked rest
  | ReadMessageResult.starved => ConnectionStep.starved
  | ReadMessageResult.ok payload rest =>
    if payload.isEmpty then ConnectionStep.terminated rest
    else if utf8Valid payload then ConnectionStep.delivered payload rest
    else ConnectionStep.skipped rest

theorem read_from_stream_done (buf : List Nat) (cursor : Nat)
    (input : List ReadEvent) (hcur : buf.length ≤ cursor) :
    read_from_stream buf cursor input = ReadResult.filled buf input := by
  cases input <;> simp [read_from_stream, hcur]

theorem read_from_stream_block (buf : List Nat) (cursor : Nat)
    (rest : List ReadEvent) (hcur : cursor < buf.length) :
    read_from_stream buf cursor (ReadEvent.wouldBlock :: rest) =
      read_from_stream buf cursor rest := by
  simp [read_from_stream, Nat.not_le.mpr hcur]

theorem read_from_stream_eof (buf : List Nat) (cursor : Nat)
    (rest : List ReadEvent) (hcur : cursor < buf.length) :
    read_from_stream buf cursor (ReadEvent.data [] :: rest) =
      ReadResult.eofZero buf rest := by
  simp [read_from_stream, Nat.not_le.mpr hcur]

theorem read_from_stream_data (buf : List Nat) (cursor : Nat)
    (bs : List Nat) (rest : List ReadEvent) (hcur : cursor < buf.length)
    (hbs : bs ≠ []) :
    read_from_stream buf cursor (ReadEvent.data bs :: rest) =
      read_from_stream (writeAt buf cursor (bs.take (buf.length - cursor)))
        (cursor + min bs.length (buf.length - cursor)) rest := by
  cases bs with
  | nil => exact absurd rfl hbs
  | cons b bs => simp [read_from_stream, Nat.not_le.mpr hcur]

theorem writeAt_length (buf : List Nat) (cursor : Nat) (bs : List Nat)
    (h : cursor + bs.length ≤ buf.length) :
    (writeAt buf cursor bs).length = buf.length := by
  simp [writeAt]
  omega

theorem read_from_stream_chunks (chunks : List (List Nat)) :
    ∀ (buf : List Nat) (cursor : Nat) (rest : List ReadEvent),
      (∀ c ∈ chunks, c ≠ []) →
      cursor + (chunks.map List.length).sum = buf.length →
      read_from_stream buf cursor (chunks.map ReadEvent.data ++ rest) =
        ReadResult.filled (buf.take cursor ++ chunks.flatten) rest := by
  induction chunks with
  | nil =>
    intro buf cursor rest _ hlen
    simp only [List.map_nil, List.sum_nil, Nat.add_zero] at hlen
    rw [List.map_nil, List.nil_append,
      read_from_stream_done buf cursor rest (by omega)]
    rw [List.flatten_nil, List.append_nil, hlen, List.take_length]
  | cons c cs ih =>
    intro buf cursor rest hne hlen
    have hc : c ≠ [] := hne c (by simp)
    have hclen : 1 ≤ c.length := by
      cases c with
      | nil => exact absurd rfl hc
      | cons x xs => simp
    simp only [List.map_cons, List.sum_cons] at hlen
    have hcur : cursor < buf.length := by omega
    have hcb : cursor + c.length ≤ buf.length := by omega
    rw [List.map_cons, List.cons_append,
      read_from_stream_data buf cursor c _ hcur hc]
    rw [List.take_of_length_le (by omega : c.length ≤ buf.length - cursor),
      Nat.min_eq_left (by omega : c.length ≤ buf.length - cursor)]
    have hwl : (writeAt buf cursor c).length = buf.length :=
      writeAt_length _ _ _ hcb
    rw [ih (writeAt buf cursor c) (cursor + c.length) rest
      (fun x hx => hne x (by simp [hx])) (by omega)]
    have htk : (writeAt buf cursor c).take (cursor + c.length) =
        buf.take cursor ++ c := by
      unfold writeAt
      apply List.take_left'
      simp
      omega
    rw [htk, List.flatten_cons, List.append_assoc]

/-- Claim C6: evaluation at the failing input. A header whose four bytes
are all 255 makes read_message allocate a body buffer of 4294967295
bytes: there is no MAX_FRAME bound and no framing error before the
allocation. -/
theorem read_message_unbounded_alloc :
    read_message_alloc [ReadEvent.data [255, 255, 255, 255]] =
      some 4294967295 := rfl

/-- The body allocation of read_message always equals the header value:
the length field drives the allocation unchecked, for every header. -/
theorem read_message_alloc_spec (b0 b1 b2 b3 : Nat)
    (rest : List ReadEvent) :
    read_message_alloc (ReadEvent.data [b0, b1, b2, b3] :: rest) =
      some (b0 + 256 * (b1 + 256 * (b2 + 256 * b3))) := by
  cases rest <;> rfl

/-- Claim C8 counterexample: header 3, a single body byte 65, then peer
EOF. The zero-length read during the body does not terminate the
connection: the zero-padded partial frame 65 0 0 is delivered to the
session logic. -/
theorem read_eof_mid_body_delivers :
    connection_step
      [ReadEvent.data [3, 0, 0, 0], ReadEvent.data [65], ReadEvent.data []] =
      ConnectionStep.delivered [65, 0, 0] [] := rfl

/-- Claim C8 (amended): the reader accumulates byte counts across short
reads until the buffer is full and retries on would-block indications,
and a zero-length read before the first header byte terminates the
connection cleanly; but a zero-length read in the middle of the body does
not terminate the connection — the unread remainder of the body buffer
stays zero-filled and read_message returns the zero-padded partial frame
as a successful message, which the read loop then delivers. -/
theorem framing_read_spec :
    (∀ (buf : List Nat) (cursor : Nat) (rest : List ReadEvent),
      cursor < buf.length →
      read_from_stream buf cursor (ReadEvent.wouldBlock :: rest) =
        read_from_stream buf cursor rest)
    ∧ (∀ (n : Nat) (chunks : List (List Nat)) (rest : List ReadEvent),
      (∀ c ∈ chunks, c ≠ []) → (chunks.map List.length).sum = n →
      read_from_stream (List.replicate n 0) 0
          (chunks.map ReadEvent.data ++ rest) =
        ReadResult.filled chunks.flatten rest)
    ∧ (∀ rest : List ReadEvent,
      connection_step (ReadEvent.data [] :: rest) =
        ConnectionStep.terminated rest)
    ∧ (∀ (b0 b1 b2 b3 : Nat) (chunk : List Nat) (rest : List ReadEvent),
      chunk ≠ [] →
      chunk.length < b0 + 256 * (b1 + 256 * (b2 + 256 * b3)) →
      read_message (ReadEvent.data [b0, b1, b2, b3] :: ReadEvent.data chunk ::
          ReadEvent.data [] :: rest) =
        ReadMessageResult.ok
          (chunk ++ List.replicate
            (b0 + 256 * (b1 + 256 * (b2 + 256 * b3)) - chunk.length) 0)
          rest) := by
  refine ⟨read_from_stream_block, ?_, ?_, ?_⟩
  · intro n chunks rest hne hsum
    have h := read_from_stream_chunks chunks (List.replicate n 0) 0 rest hne
      (by simp [hsum])
    simpa using h
  · intro rest
    have h1 : read_from_stream [0, 0, 0, 0] 0 (ReadEvent.data [] :: rest) =
        ReadResult.eofZero [0, 0, 0, 0] rest :=
      read_from_stream_eof _ _ _ (by simp)
    have h2 : read_from_stream ([] : List Nat) 0 rest =
        ReadResult.filled [] rest :=
      read_from_stream_done _ _ _ (by simp)
    simp [connection_step, read_message, h1, readMessageBody,
      u32FromLeBytes, h2]
  · intro b0 b1 b2 b3 chunk rest hchunk hlen
    have hcpos : 0 < chunk.length := List.length_pos.mpr hchunk
    have hhdr : read_from_stream [0, 0, 0, 0] 0
        (ReadEvent.data [b0, b1, b2, b3] :: ReadEvent.data chunk ::
          ReadEvent.data [] :: rest) =
        ReadResult.filled [b0, b1, b2, b3]
          (ReadEvent.data chunk :: ReadEvent.data [] :: rest) := rfl
    have hbody : read_from_stream
        (List.replicate (b0 + 256 * (b1 + 256 * (b2 + 256 * b3))) 0) 0
        (ReadEvent.data chunk :: ReadEvent.data [] :: rest) =
        ReadResult.eofZero
          (chunk ++ List.replicate
            (b0 + 256 * (b1 + 256 * (b2 + 256 * b3)) - chunk.length) 0)
          rest := by
      rw [read_from_stream_data _ _ _ _ (by simp; omega) hchunk]
      rw [List.take_of_length_le (by simp; omega),
        show min chunk.length
          ((List.replicate (b0 + 256 * (b1 + 256 * (b2 + 256 * b3))) 0).length
            - 0) = chunk.length from by simp; omega]
      rw [show writeAt
          (List.replicate (b0 + 256 * (b1 + 256 * (b2 + 256 * b3))) 0) 0 chunk =
          chunk ++ List.replicate
            (b0 + 256 * (b1 + 256 * (b2 + 256 * b3)) - chunk.length) 0 from by
        simp [writeAt, List.drop_replicate]]
      exact read_from_stream_eof _ _ _ (by simp; omega)
    simp [read_message, hhdr, readMessageBody, u32FromLeBytes, hbody]

/-- Witness for claim C8 at concrete inputs: a would-block retry, a body
read accumulated over the chunks 7 and 8, an immediate EOF terminating
the connection, and the EOF after header 3 and body byte 65 delivering
the zero-padded partial frame. -/
theorem framing_read_spec_witness :
    read_from_stream [0, 0] 0 [ReadEvent.wouldBlock] =
        read_from_stream [0, 0] 0 [] ∧
    read_from_stream (List.replicate 2 0) 0
        [ReadEvent.data [7], ReadEvent.data [8]] =
      ReadResult.filled [7, 8] [] ∧
    connection_step [ReadEvent.data []] = ConnectionStep.terminated [] ∧
    read_message [ReadEvent.data [3, 0, 0, 0], ReadEvent.data [65],
        ReadEvent.data []] =
      ReadMessageResult.ok [65, 0, 0] [] :=
  ⟨framing_read_spec.1 [0, 0] 0 [] (by decide),
    framing_read_spec.2.1 2 [[7], [8]] [] (by decide) (by decide),
    framing_read_spec.2.2.1 [],
    framing_read_spec.2.2.2 3 0 0 0 [65] [] (by decide) (by decide)⟩

end RustyChat
